import Mathlib

/-!
# The go-bftx operation gateway (`api/api/api.go`)

A shallow embedding of the GraphQL gateway: the resolvers of the operation
table (`queryType`, `mutationType`), the primary endpoint (`httpHandler`) and
the secondary endpoint (`serveGraphQL`).

Conventions of the embedding.

* The `apiHandler` package (the transaction store, the cryptographic and the
  broadcast subsystems) is a record of state transformers over an arbitrary
  store type `σ`; every call a resolver makes to it goes through `invoke`,
  which also appends the call to the log `World.calls`.
* The record type `bf_tx.BF_TX` and the values the external calls return live
  in other packages; they are the type parameters `T` and `V`. For the
  structural decode of `constructBFTX` a record type is a `GoType` and a record
  a `GoVal`.
* Library routines (`strconv`, `encoding/json`, the GraphQL engine, the
  response writer) are modelled on their documented behaviour; where a handler
  only threads a library routine through, the routine is a parameter.
* Writes to standard output (`fmt.Println`, `log.Println`) are not modelled.
-/

set_option autoImplicit false

namespace Bftx

/-! ## Go values -/

/-- A Go `error` value; `Error()` returns `msg`. -/
structure GoError where
  msg : String
deriving DecidableEq, Repr

/-- The method `Error()` of an error value. -/
def GoError.Error (e : GoError) : String := e.msg

/-- The function `errors.New`. -/
def errorsNew (text : String) : GoError := ⟨text⟩

/-- The dynamic values an argument bag (`map[string]interface{}`) can hold:
the nil interface, booleans, integers, floats (a float64 by the rational it
denotes, `none` for NaN and the infinities), strings, lists and nested maps.
A map lists each of its keys once. -/
inductive Value where
  | null
  | bool (b : Bool)
  | int (n : Int)
  | float (f : Option Rat)
  | str (s : String)
  | list (xs : List Value)
  | obj (fields : List (String × Value))

/-- The argument bag `p.Args` handed to a resolver. -/
abbrev Args := List (String × Value)

/-- Map indexing `p.Args[key]`: the value stored under `key`, or the nil
interface when the key is absent. -/
def Args.index (args : Args) (key : String) : Value :=
  (args.lookup key).getD Value.null

/-- The type assertion `v.(string)` in its two-result form: the string and
`true` when `v` holds a string, the empty string and `false` otherwise. -/
def Value.assertString : Value → String × Bool
  | Value.str s => (s, true)
  | _ => ("", false)

/-! ## `net/http` constants and `strconv` -/

/-- Constant `http.StatusOK`. -/
def StatusOK : Int := 200
/-- Constant `http.StatusBadRequest`. -/
def StatusBadRequest : Int := 400
/-- Constant `http.StatusInternalServerError`. -/
def StatusInternalServerError : Int := 500

/-- The function `strconv.Itoa`: the decimal form of an integer. -/
def Itoa (i : Int) : String := toString i

/-- The two errors of `strconv`'s number parsers. -/
inductive NumError where
  | syntaxErr
  | rangeErr
deriving DecidableEq, Repr

/-- Size in bits of Go's `int` (`strconv.IntSize` on a 64-bit platform). -/
def IntSize : Nat := 64

/-- Digit loop of `strconv.ParseUint` in base 10, with the value `n` read so
far: a character other than `0`..`9` is a syntax error; as soon as the value
no longer fits 64 bits the loop stops with a range error and the largest
value. -/
def parseDigits : List Char → Nat → Nat × Option NumError
  | [], n => (n, none)
  | c :: cs, n =>
    if '0' ≤ c ∧ c ≤ '9' then
      if n * 10 + (c.toNat - '0'.toNat) < 2 ^ 64 then
        parseDigits cs (n * 10 + (c.toNat - '0'.toNat))
      else (2 ^ 64 - 1, some NumError.rangeErr)
    else (0, some NumError.syntaxErr)

/-- The function `strconv.ParseUint(s, 10, 0)` on the characters of `s`: the
empty string is a syntax error, the rest is the digit loop. -/
def ParseUint (cs : List Char) : Nat × Option NumError :=
  match cs with
  | [] => (0, some NumError.syntaxErr)
  | _ => parseDigits cs 0

/-- The function `strconv.ParseInt(s, 10, 0)`: an optional sign, then
`ParseUint`, then the range check against `1 << (IntSize-1)`. -/
def ParseInt (s : String) : Int × Option NumError :=
  match s.data with
  | [] => (0, some NumError.syntaxErr)
  | c :: cs =>
    let neg := c == '-'
    let rest := if c == '+' ∨ c == '-' then cs else c :: cs
    match ParseUint rest with
    | (_, some NumError.syntaxErr) => (0, some NumError.syntaxErr)
    | (un, _) =>
      let cutoff : Nat := 2 ^ (IntSize - 1)
      if !neg ∧ un ≥ cutoff then ((cutoff : Int) - 1, some NumError.rangeErr)
      else if neg ∧ un > cutoff then (-(cutoff : Int), some NumError.rangeErr)
      else if neg then (-(un : Int), none) else ((un : Int), none)

/-- The function `strconv.Atoi`: `ParseInt(s, 10, 0)` converted to `int` (its
fast path for short inputs computes the same result). -/
def Atoi (s : String) : Int × Option NumError := ParseInt s

/-! ## The GraphQL engine's data -/

/-- Type `gqlerrors.FormattedError`: a failure of an outcome. -/
structure FormattedError where
  Message : String
  Locations : List (Nat × Nat)
deriving DecidableEq, Repr

/-- The method `Error()` of a formatted error: its message. -/
def FormattedError.Error (e : FormattedError) : String := e.Message

/-- Type `graphql.Result`: the outcome of executing a request, with the data
of type `D` and the failures in the order the engine recorded them. -/
structure Result (D : Type) where
  Data : D
  Errors : List FormattedError

/-- The method `Result.HasErrors`. -/
def Result.HasErrors {D : Type} (r : Result D) : Bool := decide (0 < r.Errors.length)

/-! ## The external collaborators (`apiHandler`) -/

/-- A call into the `apiHandler` package, with its argument. -/
inductive ExtCall (T : Type) where
  | GetTransaction (id : String)
  | QueryTransaction (id : String)
  | GetInfo
  | GetTotal
  | ConstructBfTx (tx : T)
  | EncryptBFTX (id : String)
  | DecryptBFTX (id : String)
  | SignBfTx (id : String)
  | BroadcastBfTx (id : String)

/-- What a resolver or an external call returns: an `interface{}` (`none` is
the nil interface) and an `error` (`none` is the nil error). -/
abbrev Reply (V : Type) := Option V × Option GoError

/-- The `apiHandler` package: each function reads and updates the external
store `σ` and returns a value and an error. -/
structure ApiHandler (σ T V : Type) where
  GetTransaction : String → σ → Reply V × σ
  QueryTransaction : String → σ → Reply V × σ
  GetInfo : σ → Reply V × σ
  GetTotal : σ → Reply V × σ
  ConstructBfTx : T → σ → Reply V × σ
  EncryptBFTX : String → σ → Reply V × σ
  DecryptBFTX : String → σ → Reply V × σ
  SignBfTx : String → σ → Reply V × σ
  BroadcastBfTx : String → σ → Reply V × σ

/-- The state a request runs in: the external store and the log of the calls
made into `apiHandler` so far, oldest first. -/
structure World (σ T : Type) where
  store : σ
  calls : List (ExtCall T)

/-- One call into `apiHandler`: run it on the store and append it to the log. -/
def invoke {σ T α : Type} (c : ExtCall T) (f : σ → α × σ) (w : World σ T) :
    α × World σ T :=
  ((f w.store).1, ⟨(f w.store).2, w.calls ++ [c]⟩)

/-- A `Resolve` function of a field: from the argument bag to a reply. -/
abbrev Resolver (σ T V : Type) := Args → World σ T → Reply V × World σ T

/-- The two entry points of `encoding/json` the gateway uses, over a
representation `B` of byte slices: `Marshal` returns the bytes and an error;
`Unmarshal bytes v` decodes into the record `v` and returns the filled record,
or the error (the caller reads the record of a successful call only). -/
structure JsonCodec (B T : Type) where
  Marshal : Args → B × Option GoError
  Unmarshal : B → T → Except GoError T

section Resolvers

variable {σ T V B : Type}

/-! ## The operation table: `queryType` -/

/-- Resolver of `getTransaction` (api.go lines 39-46). -/
def getTransaction (h : ApiHandler σ T V) : Resolver σ T V := fun args w =>
  let r := (args.index "id").assertString
  if !r.2 then ((none, some (errorsNew (Itoa StatusBadRequest))), w)
  else invoke (ExtCall.GetTransaction r.1) (h.GetTransaction r.1) w

/-- Resolver of `queryTransaction` (api.go lines 55-62). -/
def queryTransaction (h : ApiHandler σ T V) : Resolver σ T V := fun args w =>
  let r := (args.index "Id").assertString
  if !r.2 then ((none, some (errorsNew (Itoa StatusBadRequest))), w)
  else invoke (ExtCall.QueryTransaction r.1) (h.QueryTransaction r.1) w

/-- Resolver of `getInfo` (api.go lines 66-68). -/
def getInfo (h : ApiHandler σ T V) : Resolver σ T V := fun _ w =>
  invoke ExtCall.GetInfo h.GetInfo w

/-- Resolver of `getTotal` (api.go lines 72-75). -/
def getTotal (h : ApiHandler σ T V) : Resolver σ T V := fun _ w =>
  invoke ExtCall.GetTotal h.GetTotal w

/-! ## The operation table: `mutationType` -/

/-- Resolver of `constructBFTX` (api.go lines 97-106): `zero` is the record
`bf_tx.BF_TX{}`; the error of `json.Marshal` is overwritten unread by the
error of `json.Unmarshal`. -/
def constructBFTX (json : JsonCodec B T) (zero : T) (h : ApiHandler σ T V) :
    Resolver σ T V := fun args w =>
  let bftx := zero
  let jsonProperties := (json.Marshal args).1
  match json.Unmarshal jsonProperties bftx with
  | Except.error _ => ((none, some (errorsNew (Itoa StatusInternalServerError))), w)
  | Except.ok bftx => invoke (ExtCall.ConstructBfTx bftx) (h.ConstructBfTx bftx) w

/-- Resolver of `encryptBFTX` (api.go lines 115-122). -/
def encryptBFTX (h : ApiHandler σ T V) : Resolver σ T V := fun args w =>
  let r := (args.index "Id").assertString
  if !r.2 then ((none, none), w)
  else invoke (ExtCall.EncryptBFTX r.1) (h.EncryptBFTX r.1) w

/-- Resolver of `decryptBFTX` (api.go lines 131-138). -/
def decryptBFTX (h : ApiHandler σ T V) : Resolver σ T V := fun args w =>
  let r := (args.index "Id").assertString
  if !r.2 then ((none, none), w)
  else invoke (ExtCall.DecryptBFTX r.1) (h.DecryptBFTX r.1) w

/-- Resolver of `signBFTX` (api.go lines 147-154). -/
def signBFTX (h : ApiHandler σ T V) : Resolver σ T V := fun args w =>
  let r := (args.index "Id").assertString
  if !r.2 then ((none, none), w)
  else invoke (ExtCall.SignBfTx r.1) (h.SignBfTx r.1) w

/-- Resolver of `broadcastBFTX` (api.go lines 163-170). -/
def broadcastBFTX (h : ApiHandler σ T V) : Resolver σ T V := fun args w =>
  let r := (args.index "Id").assertString
  if !r.2 then ((none, none), w)
  else invoke (ExtCall.BroadcastBfTx r.1) (h.BroadcastBfTx r.1) w

/-- An entry of the operation table: the field's name, the names of its
declared arguments (the keys of `Args: graphql.FieldConfigArgument`) and its
resolver. -/
structure Field (σ T V : Type) where
  name : String
  argNames : List String
  resolve : Resolver σ T V

/-- The object `queryType` (api.go lines 28-78). -/
def queryType (h : ApiHandler σ T V) : List (Field σ T V) :=
  [⟨"getTransaction", ["Id"], getTransaction h⟩,
   ⟨"queryTransaction", ["Id"], queryTransaction h⟩,
   ⟨"getInfo", [], getInfo h⟩,
   ⟨"getTotal", [], getTotal h⟩]

/-- The object `mutationType` (api.go lines 80-174). -/
def mutationType (json : JsonCodec B T) (zero : T) (h : ApiHandler σ T V) :
    List (Field σ T V) :=
  [⟨"constructBFTX", ["Properties"], constructBFTX json zero h⟩,
   ⟨"encryptBFTX", ["Id"], encryptBFTX h⟩,
   ⟨"decryptBFTX", ["Id"], decryptBFTX h⟩,
   ⟨"signBFTX", ["Id"], signBFTX h⟩,
   ⟨"broadcastBFTX", ["Id"], broadcastBFTX h⟩]

/-- The argument bags the schema engine hands to the resolver of a field: the
engine fills the bag from the field's declared arguments only, so every key of
the bag is a declared argument name. -/
def Field.admits (f : Field σ T V) (args : Args) : Prop :=
  ∀ k ∈ args.map Prod.fst, k ∈ f.argNames

end Resolvers

/-! ## The HTTP bridge -/

/-- Type `handler.RequestOptions`: what `handler.NewRequestOptions` extracts
from a request. -/
structure RequestOptions where
  Query : String
  Variables : Args
  OperationName : String

/-- A value stored in the root object of a request. -/
inductive RootItem (Req : Type) where
  | response
  | request (r : Req)
  | text (s : String)

/-- Type `graphql.Params`, with the fields the gateway sets. A nil map is the
empty list, an unset string the empty string. -/
structure Params (S Req : Type) where
  Schema : S
  RequestString : String
  VariableValues : Args
  OperationName : String
  RootObject : List (String × RootItem Req)

/-- A call on an `http.ResponseWriter`. -/
inductive RWCall where
  | HeaderSet (key val : String)
  | WriteHeader (code : Int)
  | Write (body : String)
deriving DecidableEq, Repr

/-- The function `http.Error(rw, msg, code)`: sets the plain-text headers,
writes the status line and then the message followed by a newline. -/
def httpError (msg : String) (code : Int) : List RWCall :=
  [RWCall.HeaderSet "Content-Type" "text/plain; charset=utf-8",
   RWCall.HeaderSet "X-Content-Type-Options" "nosniff",
   RWCall.WriteHeader code,
   RWCall.Write (msg ++ "\n")]

/-- The check `checkWriteHeaderCode` of `net/http`: `WriteHeader` accepts the
three-digit codes only. -/
def validStatusCode (code : Int) : Prop := 100 ≤ code ∧ code ≤ 999

/-- The function `checkWriteHeaderCode` of `net/http`, as a test: `false` is
its panic `invalid WriteHeader code`. -/
def checkWriteHeaderCode (code : Int) : Bool := decide (100 ≤ code ∧ code ≤ 999)

/-- The field `wroteHeader` of `net/http`'s response writer after the calls of
a log: the status line is written by the first `WriteHeader` or, implicitly, by
the first `Write`. -/
def wroteHeader : List RWCall → Bool
  | [] => false
  | RWCall.HeaderSet _ _ :: rest => wroteHeader rest
  | RWCall.WriteHeader _ :: _ => true
  | RWCall.Write _ :: _ => true

/-- The method `WriteHeader` of `net/http`'s response writer after the calls
`log`: the log with this call, and whether the call panics. A call after the
status line is written is superfluous and returns; otherwise the code goes
through `checkWriteHeaderCode`, which panics on a code outside 100..999. -/
def rwWriteHeader (log : List RWCall) (code : Int) : List RWCall × Bool :=
  (log ++ [RWCall.WriteHeader code], !wroteHeader log && !checkWriteHeaderCode code)

/-- What serving one request does: the calls made on the response writer, in
order, the parameters of every `graphql.Do` run, the state left, and whether
the handler ended in a panic (the last call of `rw` is then the one that
panicked). -/
structure Served (S Req W : Type) where
  rw : List RWCall
  runs : List (Params S Req)
  world : W
  panicked : Bool

/-- The value of the variable `httpStatusResponse` when it is passed to
`rw.WriteHeader` (api.go lines 197 and 228-237): `http.StatusOK`, replaced when
the result has errors by the integer `strconv.Atoi` reads from the first
error's message, or by `http.StatusInternalServerError` when `Atoi` fails. -/
def httpStatusResponse {D : Type} (result : Result D) : Int :=
  if result.HasErrors then
    match result.Errors with
    | e :: _ =>
      match Atoi e.Error with
      | (n, none) => n
      | (_, some _) => StatusInternalServerError
    | [] => StatusOK
  else StatusOK

/-- The handler returned by `httpHandler(&schema)` (api.go lines 194-241),
serving request `r` in state `w`. The routines `handler.NewRequestOptions`,
`graphql.Do` and `json.Marshal` are the parameters `NewRequestOptions`, `Do`
and `Marshal`. When `rw.WriteHeader(httpStatusResponse)` at line 237 panics,
`rw.Write(js)` at line 239 is not reached. -/
def httpHandler {S Req W D : Type}
    (NewRequestOptions : Req → RequestOptions)
    (Do : Params S Req → W → Result D × W)
    (Marshal : Result D → String × Option GoError)
    (schema : S) (r : Req) (w : W) : Served S Req W :=
  let rw0 := [RWCall.HeaderSet "Content-Type" "application/json"]
  let opts := NewRequestOptions r
  let rootValue := [("response", RootItem.response), ("request", RootItem.request r),
    ("viewer", RootItem.text "john_doe")]
  let params : Params S Req :=
    ⟨schema, opts.Query, opts.Variables, opts.OperationName, rootValue⟩
  let d := Do params w
  let result := d.1
  let m := Marshal result
  let js := m.1
  let rw1 := match m.2 with
    | some err => rw0 ++ httpError err.Error StatusInternalServerError
    | none => rw0
  let wh := rwWriteHeader rw1 (httpStatusResponse result)
  if wh.2 then ⟨wh.1, [params], d.2, true⟩
  else ⟨wh.1 ++ [RWCall.Write js], [params], d.2, false⟩

/-- Type `graphiql.Request`: the decoded body of a request to the secondary
endpoint. The handler reads `Query` only. -/
structure GraphiqlRequest where
  Query : String
  Variables : Args

/-- The closure `sendError` of `serveGraphQL` (api.go lines 249-252); the code
500 passes `checkWriteHeaderCode`. -/
def sendError (err : GoError) : List RWCall :=
  [RWCall.WriteHeader 500, RWCall.Write err.Error]

/-- The handler returned by `serveGraphQL(s)` (api.go lines 247-268), serving a
request with body `body` in state `w`. `Decode` is
`json.NewDecoder(r.Body).Decode`, `Encode` is `json.NewEncoder(w).Encode`: the
text it writes to the response, or its error. -/
def serveGraphQL {S Req W D Body : Type}
    (Decode : Body → Except GoError GraphiqlRequest)
    (Do : Params S Req → W → Result D × W)
    (Encode : Result D → Except GoError String)
    (s : S) (body : Body) (w : W) : Served S Req W :=
  match Decode body with
  | Except.error err => ⟨sendError err, [], w, false⟩
  | Except.ok req =>
    let params : Params S Req := ⟨s, req.Query, [], "", []⟩
    let d := Do params w
    match Encode d.1 with
    | Except.error err => ⟨sendError err, [params], d.2, false⟩
    | Except.ok text => ⟨[RWCall.Write text], [params], d.2, false⟩

/-- The engine on a request that selects the single root field `name` with the
coerced argument bag `args`: it calls the field's resolver once; an error of
the resolver becomes the failure of the outcome, with the same message and the
locations `locs` of the field in the request, and the field's data is null; a
nil value without an error is null data without a failure; any other value is
completed by `complete`, which may add failures. -/
def executeField {W V D : Type} (complete : V → D × List FormattedError)
    (locs : List (Nat × Nat)) (resolve : Args → W → Reply V × W) (name : String)
    (args : Args) (w : W) : Result (List (String × Option D)) × W :=
  let r := resolve args w
  match r.1 with
  | (_, some err) => (⟨[(name, none)], [⟨err.Error, locs⟩]⟩, r.2)
  | (none, none) => (⟨[(name, none)], []⟩, r.2)
  | (some v, none) => (⟨[(name, some (complete v).1)], (complete v).2⟩, r.2)

/-! ## `encoding/json`

Byte slices are abstracted to the JSON document they spell: `some j` for the
text of the document `j`, `none` for bytes that are not a JSON text, such as
the nil slice `json.Marshal` returns together with an error. The Go types a
record is declared with are strings, booleans, `int` and nested structs. -/

/-- A JSON document; the members of an object are in the order of the text. -/
inductive Json where
  | null
  | bool (b : Bool)
  | num (q : Rat)
  | str (s : String)
  | arr (xs : List Json)
  | obj (members : List (String × Json))

/-- Order of two strings as byte sequences (in UTF-8 this is the
lexicographic order of the code points): `a ≤ b`. -/
def charsLE : List Char → List Char → Bool
  | [], _ => true
  | _ :: _, [] => false
  | a :: as, b :: bs =>
    if a.toNat < b.toNat then true
    else if a.toNat = b.toNat then charsLE as bs
    else false

/-- Insertion of a member into a list of members sorted by key. -/
def insertMember (m : String × Json) : List (String × Json) → List (String × Json)
  | [] => [m]
  | x :: xs => if charsLE m.1.data x.1.data then m :: x :: xs else x :: insertMember m xs

/-- The members of a map sorted by key, the order in which `json.Marshal`
writes a map. -/
def sortMembers : List (String × Json) → List (String × Json)
  | [] => []
  | m :: ms => insertMember m (sortMembers ms)

mutual
/-- The function `json.Marshal` on a dynamic value: the document it writes, or
`none` for the error it returns on a float that is NaN or infinite. -/
def marshalValue : Value → Option Json
  | Value.null => some Json.null
  | Value.bool b => some (Json.bool b)
  | Value.int n => some (Json.num n)
  | Value.float none => none
  | Value.float (some q) => some (Json.num q)
  | Value.str s => some (Json.str s)
  | Value.list xs => (marshalList xs).map Json.arr
  | Value.obj kvs => (marshalMembers kvs).map (fun ms => Json.obj (sortMembers ms))
/-- The elements of a list, marshalled in order. -/
def marshalList : List Value → Option (List Json)
  | [] => some []
  | v :: vs =>
    match marshalValue v, marshalList vs with
    | some j, some js => some (j :: js)
    | _, _ => none
/-- The entries of a map, marshalled (not yet sorted). -/
def marshalMembers : List (String × Value) → Option (List (String × Json))
  | [] => some []
  | (k, v) :: rest =>
    match marshalValue v, marshalMembers rest with
    | some j, some js => some ((k, j) :: js)
    | _, _ => none
end

/-- A Go type of a record field: `string`, `bool`, `int`, or a struct given by
its fields, each with the name it has in JSON, in declaration order. -/
inductive GoType where
  | string
  | bool
  | int
  | struct (fields : List (String × GoType))

/-- A value of a `GoType`; a struct value lists its fields by name. -/
inductive GoVal where
  | str (s : String)
  | bool (b : Bool)
  | int (n : Int)
  | struct (fields : List (String × GoVal))

mutual
/-- The zero value of a type, as in `bf_tx.BF_TX{}`. -/
def zeroValue : GoType → GoVal
  | GoType.string => GoVal.str ""
  | GoType.bool => GoVal.bool false
  | GoType.int => GoVal.int 0
  | GoType.struct fs => GoVal.struct (zeroFields fs)
/-- The zero values of the fields of a struct. -/
def zeroFields : List (String × GoType) → List (String × GoVal)
  | [] => []
  | (n, ty) :: rest => (n, zeroValue ty) :: zeroFields rest
end

/-- Case-insensitive equality of a field name and an object key, for the
folding `fold` of characters. -/
def equalFold (fold : Char → Char) (a b : String) : Bool :=
  a.data.map fold == b.data.map fold

/-- The struct field an object key is decoded into: the field whose name is
the key, or else the first field whose name equals the key up to letter case. -/
def findField (fold : Char → Char) (fs : List (String × GoType)) (key : String) :
    Option (String × GoType) :=
  match fs.find? (fun f => f.1 == key) with
  | some f => some f
  | none => fs.find? (fun f => equalFold fold f.1 key)

/-- The fields of the struct value being decoded into. -/
def structFields (fs : List (String × GoType)) : GoVal → List (String × GoVal)
  | GoVal.struct vals => vals
  | _ => zeroFields fs

/-- The current value of the field `n`. -/
def getField (vals : List (String × GoVal)) (n : String) (ty : GoType) : GoVal :=
  (vals.lookup n).getD (zeroValue ty)

/-- Assignment of `v` to the field `n`. -/
def setField (vals : List (String × GoVal)) (n : String) (v : GoVal) :
    List (String × GoVal) :=
  vals.map (fun p => if p.1 == n then (p.1, v) else p)

mutual
/-- The function `json.Unmarshal` on a document, decoding into the value `cur`
of type `ty`: the updated value, or `none` for the error it returns. A null
leaves the value as it is; a string, a boolean and an integer literal in the
range of `int` are stored into a field of their type; an object is decoded
member by member into a struct; everything else is a type error. -/
def decodeValue (fold : Char → Char) : GoType → Json → GoVal → Option GoVal
  | _, Json.null, cur => some cur
  | GoType.string, Json.str s, _ => some (GoVal.str s)
  | GoType.bool, Json.bool b, _ => some (GoVal.bool b)
  | GoType.int, Json.num q, _ =>
    if q.den = 1 ∧ -(2 ^ 63) ≤ q.num ∧ q.num < 2 ^ 63 then some (GoVal.int q.num) else none
  | GoType.struct fs, Json.obj ms, cur =>
    (decodeMembers fold fs ms (structFields fs cur)).map GoVal.struct
  | _, _, _ => none
/-- Decoding of the members of an object, in order, into the fields `vals` of
a struct: a key that matches no field is skipped. -/
def decodeMembers (fold : Char → Char) (fs : List (String × GoType)) :
    List (String × Json) → List (String × GoVal) → Option (List (String × GoVal))
  | [], vals => some vals
  | (k, j) :: rest, vals =>
    match findField fold fs k with
    | none => decodeMembers fold fs rest vals
    | some f =>
      match decodeValue fold f.2 j (getField vals f.1 f.2) with
      | none => none
      | some v => decodeMembers fold fs rest (setField vals f.1 v)
end

/-- The package `encoding/json` for records of type `shape`: `Marshal` of an
argument bag (a non-nil map) and `Unmarshal` into a record. -/
def goJson (fold : Char → Char) (shape : GoType) : JsonCodec (Option Json) GoVal :=
  ⟨fun args =>
    match marshalValue (Value.obj args) with
    | some j => (some j, none)
    | none => (none, some ⟨"json: unsupported value"⟩),
   fun bytes v =>
    match bytes with
    | none => Except.error ⟨"unexpected end of JSON input"⟩
    | some j =>
      match decodeValue fold shape j v with
      | some v' => Except.ok v'
      | none => Except.error ⟨"json: cannot unmarshal"⟩⟩

/-- The folding of the ASCII letters, to upper case. -/
def asciiFold (c : Char) : Char := c.toUpper

/-- A sample transaction shape: the string `Id` and the sub-object `Properties`
with two string fields `A` and `B`. -/
def sampleShape : GoType :=
  GoType.struct [("Properties", GoType.struct [("A", GoType.string), ("B", GoType.string)]),
    ("Id", GoType.string)]

/-! ## The structural decode of `constructBFTX`, in the words of the spec -/

mutual
/-- The record the spec describes for an input: a declared field that is
present in the input with a value of its type holds that value; a declared
field that is absent (or null, or, outside the conforming inputs, of another
type) holds its zero value; input fields that are not declared do not appear. -/
def transfer : GoType → Value → GoVal
  | GoType.string, Value.str s => GoVal.str s
  | GoType.bool, Value.bool b => GoVal.bool b
  | GoType.int, Value.int n => GoVal.int n
  | GoType.struct fs, Value.obj kvs => GoVal.struct (transferFields fs kvs)
  | ty, _ => zeroValue ty
/-- The declared fields of a struct, each looked up in the input by its name. -/
def transferFields : List (String × GoType) → List (String × Value) → List (String × GoVal)
  | [], _ => []
  | (n, ty) :: rest, kvs =>
    (n, match kvs.lookup n with
        | some v => transfer ty v
        | none => zeroValue ty) :: transferFields rest kvs
end

mutual
/-- A record type whose structs declare each field name once. -/
def wellFormed : GoType → Bool
  | GoType.struct fs => decide ((fs.map Prod.fst).Nodup) && fieldsWellFormed fs
  | _ => true
/-- The types of the fields of a struct are well formed. -/
def fieldsWellFormed : List (String × GoType) → Bool
  | [] => true
  | (_, ty) :: rest => wellFormed ty && fieldsWellFormed rest
end

mutual
/-- An input that conforms to a type: a null anywhere; a string, a boolean or
an integer in the range of `int` for a field of that type; for a struct a map
that lists each key once, whose keys either are declared field names, with
conforming values, or match no declared field even up to letter case, with
values that `json.Marshal` encodes. -/
def conformsTo (fold : Char → Char) : GoType → Value → Bool
  | _, Value.null => true
  | GoType.string, Value.str _ => true
  | GoType.bool, Value.bool _ => true
  | GoType.int, Value.int n => decide (-(2 ^ 63) ≤ n ∧ n < 2 ^ 63)
  | GoType.struct fs, Value.obj kvs =>
    decide ((kvs.map Prod.fst).Nodup) && membersConform fold fs kvs
  | _, _ => false
/-- The entries of a map conform to the fields of a struct. -/
def membersConform (fold : Char → Char) (fs : List (String × GoType)) :
    List (String × Value) → Bool
  | [] => true
  | (k, v) :: rest =>
    (match fs.lookup k with
      | some ty => conformsTo fold ty v
      | none => !(fs.any (fun f => equalFold fold f.1 k)) && (marshalValue v).isSome)
    && membersConform fold fs rest
end

/-- The fields of a struct of type `fs` once the members of the input `kvs`
whose keys are in `done` have been decoded: a declared field in `done` holds
what the spec describes, the others still hold their zero value. -/
def fieldsAfter (fs : List (String × GoType)) (kvs : List (String × Value))
    (done : List String) : List (String × GoVal) :=
  fs.map (fun f => (f.1,
    if f.1 ∈ done then
      (match kvs.lookup f.1 with
        | some v => transfer f.2 v
        | none => zeroValue f.2)
    else zeroValue f.2))

/-! ## Properties used in the statements, and sample data for the closed examples -/

/-- The resolver run `run` went through to the external call `c`, whose
function on the store is `f`: the reply is the call's reply unchanged, the
store is the one the call left, and the log has grown by exactly this call. -/
def PassesThrough {σ T V : Type} (run : Reply V × World σ T) (c : ExtCall T)
    (f : σ → Reply V × σ) (w : World σ T) : Prop :=
  run.1 = (f w.store).1 ∧ run.2.store = (f w.store).2 ∧ run.2.calls = w.calls ++ [c]

/-- The argument field `key` of the bag is absent or does not hold a string. -/
def LacksString (args : Args) (key : String) : Prop :=
  ∀ s, args.lookup key ≠ some (Value.str s)

/-- The primary endpoint answered the outcome `result` with the status `code`:
the handler did not panic, the response ends by `WriteHeader code` and the
serialized outcome, and when the serialization succeeds these two calls are,
after the content type, the whole response. -/
def Answers {S Req W D : Type} (served : Served S Req W)
    (Marshal : Result D → String × Option GoError) (result : Result D) (code : Int) : Prop :=
  (∃ pre, served.rw = pre ++ [RWCall.WriteHeader code, RWCall.Write (Marshal result).1]) ∧
  ((Marshal result).2 = none →
    served.rw = [RWCall.HeaderSet "Content-Type" "application/json",
      RWCall.WriteHeader code, RWCall.Write (Marshal result).1]) ∧
  served.panicked = false

/-- A sample `apiHandler`: the store counts the calls; every lookup of a
transaction fails with the message `404`, the other calls return a text. -/
def sampleHandler : ApiHandler Nat GoVal String :=
  ⟨fun _ n => ((none, some ⟨"404"⟩), n + 1),
   fun id n => ((some id, none), n + 1),
   fun n => ((some "info", none), n + 1),
   fun n => ((some "0", none), n + 1),
   fun _ n => ((some "constructed", none), n + 1),
   fun id n => ((some id, none), n + 1),
   fun id n => ((some id, none), n + 1),
   fun id n => ((some id, none), n + 1),
   fun id n => ((some id, none), n + 1)⟩

/-- A sample `apiHandler` whose every call fails with the message `msg` and
leaves the store as it was. -/
def failingHandler (msg : String) : ApiHandler Nat GoVal String :=
  ⟨fun _ n => ((none, some ⟨msg⟩), n),
   fun _ n => ((none, some ⟨msg⟩), n),
   fun n => ((none, some ⟨msg⟩), n),
   fun n => ((none, some ⟨msg⟩), n),
   fun _ n => ((none, some ⟨msg⟩), n),
   fun _ n => ((none, some ⟨msg⟩), n),
   fun _ n => ((none, some ⟨msg⟩), n),
   fun _ n => ((none, some ⟨msg⟩), n),
   fun _ n => ((none, some ⟨msg⟩), n)⟩

/-- A sample state: an untouched store and an empty log. -/
def sampleWorld : World Nat GoVal := ⟨0, []⟩

/-- A sample completion of a resolved value: the value itself, no failure. -/
def sampleComplete : String → String × List FormattedError := fun v => (v, [])

/-- A sample serializer of outcomes: the failure messages, one per line. -/
def sampleMarshal {D : Type} (r : Result D) : String × Option GoError :=
  (String.intercalate "\n" (r.Errors.map FormattedError.Error), none)

/-- A sample request parser: the request is its query text. -/
def sampleOptions (r : String) : RequestOptions := ⟨r, [], ""⟩

/-! # Theorems -/

/-! ## Helper lemmas -/

/-! ### Association lists -/

theorem lookup_none_of_not_mem {β : Type} (l : List (String × β)) (k : String)
    (hk : k ∉ l.map Prod.fst) : l.lookup k = none := by
  induction l with
  | nil => rfl
  | cons a rest ih =>
    obtain ⟨k', v⟩ := a
    simp only [List.map_cons, List.mem_cons, not_or] at hk
    have hne : (k == k') = false := by simpa using hk.1
    simp only [List.lookup, hne]
    exact ih hk.2

theorem mem_of_lookup {β : Type} (l : List (String × β)) (k : String) (b : β)
    (h : l.lookup k = some b) : (k, b) ∈ l := by
  induction l with
  | nil => simp at h
  | cons a rest ih =>
    obtain ⟨k', v⟩ := a
    by_cases hk : k = k'
    · subst hk
      simp [List.lookup] at h
      simp [h]
    · have hne : (k == k') = false := by simpa using hk
      simp only [List.lookup, hne] at h
      exact List.mem_cons_of_mem _ (ih h)

theorem lookup_of_mem_nodup {β : Type} (l : List (String × β)) (k : String) (b : β)
    (hnd : (l.map Prod.fst).Nodup) (hm : (k, b) ∈ l) : l.lookup k = some b := by
  induction l with
  | nil => simp at hm
  | cons a rest ih =>
    obtain ⟨k', v⟩ := a
    simp only [List.map_cons, List.nodup_cons] at hnd
    rcases List.mem_cons.1 hm with heq | hmem
    · cases heq
      simp [List.lookup]
    · have hk : k ≠ k' := by
        rintro rfl
        exact hnd.1 (List.mem_map.2 ⟨(k, b), hmem, rfl⟩)
      have hne : (k == k') = false := by simpa using hk
      simp only [List.lookup, hne]
      exact ih hnd.2 hmem

/-! ### Go values and the status -/

theorem Itoa_badRequest : Itoa StatusBadRequest = "400" := by decide

theorem Itoa_internalServerError : Itoa StatusInternalServerError = "500" := by decide

theorem assertString_of_lookup {args : Args} {key s : String}
    (h : args.lookup key = some (Value.str s)) :
    (args.index key).assertString = (s, true) := by
  simp [Args.index, h, Value.assertString]

theorem assertString_of_lacks {args : Args} {key : String} (h : LacksString args key) :
    ((args.index key).assertString).2 = false := by
  unfold Args.index
  cases hl : args.lookup key with
  | none => simp [Value.assertString]
  | some v =>
    cases v with
    | str s => exact absurd hl (h s)
    | _ => simp [Value.assertString]

theorem httpStatusResponse_nil {D : Type} (d : D) :
    httpStatusResponse (⟨d, []⟩ : Result D) = 200 := by
  simp [httpStatusResponse, Result.HasErrors, StatusOK]

theorem httpStatusResponse_cons {D : Type} (d : D) (e : FormattedError)
    (rest : List FormattedError) :
    httpStatusResponse (⟨d, e :: rest⟩ : Result D) =
      if (Atoi e.Message).2 = none then (Atoi e.Message).1 else 500 := by
  simp only [httpStatusResponse, Result.HasErrors, FormattedError.Error,
    StatusInternalServerError]
  rcases hA : Atoi e.Message with ⟨n, _ | err⟩ <;> simp

/-! ## C1: status derivation of the primary endpoint -/

theorem checkWriteHeaderCode_iff (code : Int) :
    checkWriteHeaderCode code = true ↔ validStatusCode code := by
  simp [checkWriteHeaderCode, validStatusCode]

theorem httpHandler_run {S Req W D : Type}
    (NewRequestOptions : Req → RequestOptions) (Do : Params S Req → W → Result D × W)
    (Marshal : Result D → String × Option GoError) (schema : S) (r : Req) (w : W) :
    ∃ params,
      (httpHandler NewRequestOptions Do Marshal schema r w).runs = [params] ∧
      (httpHandler NewRequestOptions Do Marshal schema r w).world = (Do params w).2 ∧
      (∃ pre post, (httpHandler NewRequestOptions Do Marshal schema r w).rw =
        pre ++ RWCall.WriteHeader (httpStatusResponse (Do params w).1) :: post) ∧
      (validStatusCode (httpStatusResponse (Do params w).1) →
        Answers (httpHandler NewRequestOptions Do Marshal schema r w) Marshal (Do params w).1
          (httpStatusResponse (Do params w).1)) ∧
      (¬ validStatusCode (httpStatusResponse (Do params w).1) →
        (Marshal (Do params w).1).2 = none →
        (httpHandler NewRequestOptions Do Marshal schema r w).rw =
          [RWCall.HeaderSet "Content-Type" "application/json",
            RWCall.WriteHeader (httpStatusResponse (Do params w).1)] ∧
        (httpHandler NewRequestOptions Do Marshal schema r w).panicked = true) := by
  refine ⟨⟨schema, (NewRequestOptions r).Query, (NewRequestOptions r).Variables,
    (NewRequestOptions r).OperationName,
    [("response", RootItem.response), ("request", RootItem.request r),
      ("viewer", RootItem.text "john_doe")]⟩, ?_⟩
  simp only [httpHandler]
  generalize Do ⟨schema, (NewRequestOptions r).Query, (NewRequestOptions r).Variables,
    (NewRequestOptions r).OperationName,
    [("response", RootItem.response), ("request", RootItem.request r),
      ("viewer", RootItem.text "john_doe")]⟩ w = dr
  obtain ⟨result, w'⟩ := dr
  rcases hm : Marshal result with ⟨js, _ | err⟩
  · cases hc : checkWriteHeaderCode (httpStatusResponse result) with
    | true =>
      have hv := (checkWriteHeaderCode_iff _).1 hc
      refine ⟨by simp [rwWriteHeader, hc], by simp [rwWriteHeader, hc],
        ⟨[RWCall.HeaderSet "Content-Type" "application/json"], [RWCall.Write js],
          by simp [rwWriteHeader, hc]⟩, ?_, fun h => absurd hv h⟩
      intro _
      exact ⟨⟨[RWCall.HeaderSet "Content-Type" "application/json"],
        by simp [rwWriteHeader, hc, hm]⟩, by simp [rwWriteHeader, hc, hm],
        by simp [rwWriteHeader, hc]⟩
    | false =>
      have hv : ¬ validStatusCode (httpStatusResponse result) := by
        intro h
        rw [(checkWriteHeaderCode_iff _).2 h] at hc
        exact Bool.noConfusion hc
      refine ⟨by simp [rwWriteHeader, hc, wroteHeader],
        by simp [rwWriteHeader, hc, wroteHeader],
        ⟨[RWCall.HeaderSet "Content-Type" "application/json"], [],
          by simp [rwWriteHeader, hc, wroteHeader]⟩, fun h => absurd h hv, ?_⟩
      intro _ _
      simp [rwWriteHeader, hc, wroteHeader]
  · have hw : wroteHeader (RWCall.HeaderSet "Content-Type" "application/json" ::
        httpError err.Error StatusInternalServerError) = true := rfl
    refine ⟨by simp [rwWriteHeader, hw], by simp [rwWriteHeader, hw],
      ⟨[RWCall.HeaderSet "Content-Type" "application/json"] ++
        httpError err.Error StatusInternalServerError, [RWCall.Write js],
        by simp [rwWriteHeader, hw]⟩, ?_, ?_⟩
    · intro _
      exact ⟨⟨[RWCall.HeaderSet "Content-Type" "application/json"] ++
        httpError err.Error StatusInternalServerError,
        by simp [rwWriteHeader, hw, hm]⟩, by simp [hm], by simp [rwWriteHeader, hw]⟩
    · intro _ h
      simp [hm] at h

theorem httpHandler_answers {S Req W D : Type}
    (NewRequestOptions : Req → RequestOptions) (Do : Params S Req → W → Result D × W)
    (Marshal : Result D → String × Option GoError) (schema : S) (r : Req) (w : W)
    (result : Result D) (w' : W) (hDo : ∀ p, Do p w = (result, w'))
    (hv : validStatusCode (httpStatusResponse result)) :
    Answers (httpHandler NewRequestOptions Do Marshal schema r w) Marshal result
      (httpStatusResponse result) ∧
    (httpHandler NewRequestOptions Do Marshal schema r w).world = w' := by
  obtain ⟨params, _, h2, _, h4, _⟩ := httpHandler_run NewRequestOptions Do Marshal schema r w
  rw [hDo params] at h2 h4
  exact ⟨h4 hv, h2⟩

theorem executeField_error {W V D : Type} (complete : V → D × List FormattedError)
    (locs : List (Nat × Nat)) (resolve : Args → W → Reply V × W) (name : String) (args : Args) (w w' : W)
    (v : Option V) (err : GoError) (hr : resolve args w = ((v, some err), w')) :
    executeField complete locs resolve name args w =
      (⟨[(name, none)], [⟨err.msg, locs⟩]⟩, w') := by
  simp [executeField, hr, GoError.Error]

theorem executeField_silent {W V D : Type} (complete : V → D × List FormattedError)
    (locs : List (Nat × Nat)) (resolve : Args → W → Reply V × W) (name : String) (args : Args) (w w' : W)
    (hr : resolve args w = ((none, none), w')) :
    executeField complete locs resolve name args w = (⟨[(name, none)], []⟩, w') := by
  simp [executeField, hr]

theorem badRequest_status {D : Type} (d : D) (locs : List (Nat × Nat)) :
    httpStatusResponse (⟨d, [⟨"400", locs⟩]⟩ : Result D) = 400 := by
  rw [httpStatusResponse_cons]
  change (if (Atoi "400").2 = none then (Atoi "400").1 else 500) = 400
  decide

/-- C2. For `getTransaction` (which looks the id up under `id`) and for
`queryTransaction` (under `Id`): for every argument bag in which that field is
absent or is not a string, the resolver returns no value and the error `400`
and leaves the state as it was (the store untouched, no call logged), and the
primary endpoint, run on a request that the engine resolves to this field and
bag, answers the outcome that carries the failure `400` with the status 400. -/
theorem query_lookup_failure {σ T V S Req D : Type} (h : ApiHandler σ T V) (args : Args)
    (w : World σ T) (NewRequestOptions : Req → RequestOptions)
    (Marshal : Result (List (String × Option D)) → String × Option GoError)
    (complete : V → D × List FormattedError) (locs : List (Nat × Nat)) (schema : S)
    (r : Req) :
    (LacksString args "id" →
      getTransaction h args w = ((none, some ⟨"400"⟩), w) ∧
      Answers (httpHandler NewRequestOptions
          (fun _ => executeField complete locs (getTransaction h) "getTransaction" args)
          Marshal schema r w) Marshal ⟨[("getTransaction", none)], [⟨"400", locs⟩]⟩ 400 ∧
      (httpHandler NewRequestOptions
          (fun _ => executeField complete locs (getTransaction h) "getTransaction" args)
          Marshal schema r w).world = w) ∧
    (LacksString args "Id" →
      queryTransaction h args w = ((none, some ⟨"400"⟩), w) ∧
      Answers (httpHandler NewRequestOptions
          (fun _ => executeField complete locs (queryTransaction h) "queryTransaction" args)
          Marshal schema r w) Marshal ⟨[("queryTransaction", none)], [⟨"400", locs⟩]⟩ 400 ∧
      (httpHandler NewRequestOptions
          (fun _ => executeField complete locs (queryTransaction h) "queryTransaction" args)
          Marshal schema r w).world = w) := by
  constructor
  · intro hl
    have hres : getTransaction h args w = ((none, some ⟨"400"⟩), w) := by
      simp [getTransaction, assertString_of_lacks hl, errorsNew, Itoa_badRequest]
    have hex := executeField_error complete locs (getTransaction h) "getTransaction" args w w
      none ⟨"400"⟩ hres
    have ha := httpHandler_answers NewRequestOptions
      (fun _ => executeField complete locs (getTransaction h) "getTransaction" args)
      Marshal schema r w _ w (fun _ => hex)
    rw [badRequest_status] at ha
    have hv : validStatusCode 400 := by unfold validStatusCode; omega
    exact ⟨hres, (ha hv).1, (ha hv).2⟩
  · intro hl
    have hres : queryTransaction h args w = ((none, some ⟨"400"⟩), w) := by
      simp [queryTransaction, assertString_of_lacks hl, errorsNew, Itoa_badRequest]
    have hex := executeField_error complete locs (queryTransaction h) "queryTransaction" args w w
      none ⟨"400"⟩ hres
    have ha := httpHandler_answers NewRequestOptions
      (fun _ => executeField complete locs (queryTransaction h) "queryTransaction" args)
      Marshal schema r w _ w (fun _ => hex)
    rw [badRequest_status] at ha
    have hv : validStatusCode 400 := by unfold validStatusCode; omega
    exact ⟨hres, (ha hv).1, (ha hv).2⟩

/-- Witness of C2: the empty bag for `getTransaction`, a bag whose `Id` holds
an integer for `queryTransaction`. -/
theorem query_lookup_failure_witness :
    LacksString [] "id" ∧ LacksString [("Id", Value.int 7)] "Id" ∧
    getTransaction sampleHandler [] sampleWorld = ((none, some ⟨"400"⟩), sampleWorld) ∧
    queryTransaction sampleHandler [("Id", Value.int 7)] sampleWorld =
      ((none, some ⟨"400"⟩), sampleWorld) :=
  ⟨fun s => by simp, fun s => by simp [List.lookup],
   ((query_lookup_failure sampleHandler [] sampleWorld sampleOptions sampleMarshal
      sampleComplete [] () "q").1 (fun s => by simp)).1,
   ((query_lookup_failure sampleHandler [("Id", Value.int 7)] sampleWorld sampleOptions
      sampleMarshal sampleComplete [] () "q").2 (fun s => by simp [List.lookup])).1⟩

/-- C3. For `encryptBFTX`, `decryptBFTX`, `signBFTX` and `broadcastBFTX`: for
every argument bag in which the field `Id` is absent or is not a string, the
resolver returns the nil value with the nil error and leaves the state as it
was (the store untouched, no call logged), and the primary endpoint, run on a
request that the engine resolves to this field of `mutationType` and this bag,
answers the outcome, which carries no failure, with the status 200. -/
theorem mutation_lookup_failure {σ T V B S Req D : Type} (json : JsonCodec B T) (zero : T)
    (h : ApiHandler σ T V) (args : Args)
    (w : World σ T) (NewRequestOptions : Req → RequestOptions)
    (Marshal : Result (List (String × Option D)) → String × Option GoError)
    (complete : V → D × List FormattedError) (locs : List (Nat × Nat)) (schema : S)
    (r : Req) (hl : LacksString args "Id") :
    (encryptBFTX h args w = ((none, none), w) ∧
      decryptBFTX h args w = ((none, none), w) ∧
      signBFTX h args w = ((none, none), w) ∧
      broadcastBFTX h args w = ((none, none), w)) ∧
    (∀ f ∈ mutationType json zero h,
      f.name ∈ ["encryptBFTX", "decryptBFTX", "signBFTX", "broadcastBFTX"] →
      Answers (httpHandler NewRequestOptions
          (fun _ => executeField complete locs f.resolve f.name args)
          Marshal schema r w) Marshal ⟨[(f.name, none)], []⟩ 200 ∧
      (httpHandler NewRequestOptions
          (fun _ => executeField complete locs f.resolve f.name args)
          Marshal schema r w).world = w) := by
  have he : encryptBFTX h args w = ((none, none), w) := by
    simp [encryptBFTX, assertString_of_lacks hl]
  have hd : decryptBFTX h args w = ((none, none), w) := by
    simp [decryptBFTX, assertString_of_lacks hl]
  have hs : signBFTX h args w = ((none, none), w) := by
    simp [signBFTX, assertString_of_lacks hl]
  have hb : broadcastBFTX h args w = ((none, none), w) := by
    simp [broadcastBFTX, assertString_of_lacks hl]
  refine ⟨⟨he, hd, hs, hb⟩, ?_⟩
  have key : ∀ (name : String) (res : Resolver σ T V), res args w = ((none, none), w) →
      Answers (httpHandler NewRequestOptions
          (fun _ => executeField complete locs res name args)
          Marshal schema r w) Marshal ⟨[(name, none)], []⟩ 200 ∧
      (httpHandler NewRequestOptions (fun _ => executeField complete locs res name args)
          Marshal schema r w).world = w := by
    intro name res hres
    have hex := executeField_silent complete locs res name args w w hres
    have ha := httpHandler_answers NewRequestOptions
      (fun _ => executeField complete locs res name args) Marshal schema r w _ w
      (fun _ => hex)
    rw [httpStatusResponse_nil] at ha
    exact ha (by unfold validStatusCode; omega)
  intro f hf hname
  simp only [mutationType, List.mem_cons, List.mem_singleton, List.not_mem_nil,
    or_false] at hf
  rcases hf with rfl | rfl | rfl | rfl | rfl
  · simp at hname
  · exact key _ _ he
  · exact key _ _ hd
  · exact key _ _ hs
  · exact key _ _ hb

/-- Witness of C3: the empty bag. -/
theorem mutation_lookup_failure_witness :
    LacksString [] "Id" ∧ encryptBFTX sampleHandler [] sampleWorld = ((none, none), sampleWorld) :=
  ⟨fun s => by simp,
   (mutation_lookup_failure (goJson asciiFold sampleShape) (zeroValue sampleShape)
      sampleHandler [] sampleWorld sampleOptions sampleMarshal
      sampleComplete [] () "q" (fun s => by simp)).1.1⟩

/-! ## C4, C9: the key `id` of `getTransaction` -/

/-- C4 (the code at the failing input). The engine hands the request
`getTransaction(Id: "X")` to the resolver as the bag with `Id` holding `X`.
With an external `GetTransaction` that fails on `X` with the message `404`, the
resolver returns the error `400` without calling it (the store and the log are
as before), and the primary endpoint answers with the status 400, not 404. -/
theorem getTransaction_declared_Id_answers_400 :
    (sampleHandler.GetTransaction "X" sampleWorld.store).1 = (none, some ⟨"404"⟩) ∧
    getTransaction sampleHandler [("Id", Value.str "X")] sampleWorld =
      ((none, some ⟨"400"⟩), sampleWorld) ∧
    httpHandler sampleOptions
      (fun (_ : Params Unit String) =>
        executeField sampleComplete [] (getTransaction sampleHandler) "getTransaction"
          [("Id", Value.str "X")])
      sampleMarshal () "getTransaction(Id: X)" sampleWorld =
      ⟨[RWCall.HeaderSet "Content-Type" "application/json", RWCall.WriteHeader 400,
        RWCall.Write "400"],
       [⟨(), "getTransaction(Id: X)", [], "",
         [("response", RootItem.response), ("request", RootItem.request "getTransaction(Id: X)"),
          ("viewer", RootItem.text "john_doe")]⟩],
       sampleWorld, false⟩ := by
  refine ⟨rfl, ?_, ?_⟩
  · rfl
  · rfl

/-- C9. On every argument bag whose keys are all declared argument names of
`getTransaction` in `queryType` (that is, `Id`), the resolver of `getTransaction`
returns the error `400` and leaves the state as it was: the external
`GetTransaction` is not called, whatever the bag holds under `Id`. On such a bag
that holds a string `s` under `Id`, the resolver of `queryTransaction` goes
through to `QueryTransaction s`. -/
theorem getTransaction_key_mismatch {σ T V : Type} (h : ApiHandler σ T V) (args : Args)
    (w : World σ T) :
    (∀ f ∈ queryType h, f.name = "getTransaction" → f.admits args →
      f.resolve args w = ((none, some ⟨"400"⟩), w)) ∧
    (∀ f ∈ queryType h, f.name = "queryTransaction" → f.admits args →
      ∀ s, args.lookup "Id" = some (Value.str s) →
        PassesThrough (f.resolve args w) (ExtCall.QueryTransaction s)
          (h.QueryTransaction s) w) := by
  constructor
  · intro f hf hname hadm
    simp only [queryType, List.mem_cons, List.mem_singleton, List.not_mem_nil,
      or_false] at hf
    rcases hf with rfl | rfl | rfl | rfl
    · have hnone : args.lookup "id" = none := by
        apply lookup_none_of_not_mem
        intro hmem
        have := hadm "id" hmem
        simp at this
      simp [getTransaction, Args.index, hnone, Value.assertString, errorsNew,
        Itoa_badRequest]
    · simp at hname
    · simp at hname
    · simp at hname
  · intro f hf hname _ s hs
    simp only [queryType, List.mem_cons, List.mem_singleton, List.not_mem_nil,
      or_false] at hf
    rcases hf with rfl | rfl | rfl | rfl
    · simp at hname
    · simp [queryTransaction, assertString_of_lookup hs, PassesThrough, invoke]
    · simp at hname
    · simp at hname

/-- Witness of C9: the bag of the request `getTransaction(Id: "X")`. -/
theorem getTransaction_key_mismatch_witness :
    (∀ k ∈ ([("Id", Value.str "X")] : Args).map Prod.fst, k ∈ ["Id"]) ∧
    getTransaction sampleHandler [("Id", Value.str "X")] sampleWorld =
      ((none, some ⟨"400"⟩), sampleWorld) ∧
    PassesThrough (queryTransaction sampleHandler [("Id", Value.str "X")] sampleWorld)
      (ExtCall.QueryTransaction "X") (sampleHandler.QueryTransaction "X") sampleWorld :=
  ⟨by simp,
   (getTransaction_key_mismatch sampleHandler [("Id", Value.str "X")] sampleWorld).1
      ⟨"getTransaction", ["Id"], getTransaction sampleHandler⟩ (by simp [queryType]) rfl
      (by simp [Field.admits]),
   (getTransaction_key_mismatch sampleHandler [("Id", Value.str "X")] sampleWorld).2
      ⟨"queryTransaction", ["Id"], queryTransaction sampleHandler⟩ (by simp [queryType]) rfl
      (by simp [Field.admits]) "X" (by simp [List.lookup])⟩

/-! ## C6: pass-through of the external outcome -/

/-- C6. For every argument bag that holds a string `s` under the key the
resolver looks up (`id` for `getTransaction`, `Id` for `queryTransaction`,
`encryptBFTX`, `decryptBFTX`, `signBFTX` and `broadcastBFTX`), the resolver
calls its bound external function exactly once, with exactly `s`, and returns
the value and the error of that call unchanged; `getInfo` and `getTotal` do the
same with `GetInfo` and `GetTotal` on every bag. -/
theorem resolvers_pass_through {σ T V : Type} (h : ApiHandler σ T V) (args : Args)
    (s : String) (w : World σ T) :
    (args.lookup "id" = some (Value.str s) →
      PassesThrough (getTransaction h args w) (ExtCall.GetTransaction s)
        (h.GetTransaction s) w) ∧
    (args.lookup "Id" = some (Value.str s) →
      PassesThrough (queryTransaction h args w) (ExtCall.QueryTransaction s)
        (h.QueryTransaction s) w ∧
      PassesThrough (encryptBFTX h args w) (ExtCall.EncryptBFTX s) (h.EncryptBFTX s) w ∧
      PassesThrough (decryptBFTX h args w) (ExtCall.DecryptBFTX s) (h.DecryptBFTX s) w ∧
      PassesThrough (signBFTX h args w) (ExtCall.SignBfTx s) (h.SignBfTx s) w ∧
      PassesThrough (broadcastBFTX h args w) (ExtCall.BroadcastBfTx s)
        (h.BroadcastBfTx s) w) ∧
    PassesThrough (getInfo h args w) ExtCall.GetInfo h.GetInfo w ∧
    PassesThrough (getTotal h args w) ExtCall.GetTotal h.GetTotal w := by
  refine ⟨?_, ?_, ?_, ?_⟩
  · intro hs
    simp [getTransaction, assertString_of_lookup hs, PassesThrough, invoke]
  · intro hs
    refine ⟨?_, ?_, ?_, ?_, ?_⟩
    · simp [queryTransaction, assertString_of_lookup hs, PassesThrough, invoke]
    · simp [encryptBFTX, assertString_of_lookup hs, PassesThrough, invoke]
    · simp [decryptBFTX, assertString_of_lookup hs, PassesThrough, invoke]
    · simp [signBFTX, assertString_of_lookup hs, PassesThrough, invoke]
    · simp [broadcastBFTX, assertString_of_lookup hs, PassesThrough, invoke]
  · simp [getInfo, PassesThrough, invoke]
  · simp [getTotal, PassesThrough, invoke]

/-- Witness of C6: a bag that holds `X` under both keys; the external lookup
fails with `404` and `getTransaction` returns that very failure. -/
theorem resolvers_pass_through_witness :
    ([("id", Value.str "X"), ("Id", Value.str "X")] : Args).lookup "id" =
      some (Value.str "X") ∧
    getTransaction sampleHandler [("id", Value.str "X"), ("Id", Value.str "X")] sampleWorld =
      ((none, some ⟨"404"⟩), ⟨1, [ExtCall.GetTransaction "X"]⟩) ∧
    PassesThrough
      (signBFTX sampleHandler [("id", Value.str "X"), ("Id", Value.str "X")] sampleWorld)
      (ExtCall.SignBfTx "X") (sampleHandler.SignBfTx "X") sampleWorld :=
  ⟨by simp [List.lookup], rfl,
   ((resolvers_pass_through sampleHandler [("id", Value.str "X"), ("Id", Value.str "X")]
      "X" sampleWorld).2.1 rfl).2.2.2.1⟩

/-! ## C8: the secondary endpoint -/

/-- C8. When the body of a request to the secondary endpoint does not decode,
the response is `WriteHeader 500` followed by the text of the decode error and
nothing else, `graphql.Do` is not run and the state is as before. When the body
decodes to `req`, `graphql.Do` is run exactly once, with the schema and
`req.Query` and with no variables, no operation name and no root object, and
the state is the one that run leaves. -/
theorem serveGraphQL_contract {S Req W D Body : Type}
    (Decode : Body → Except GoError GraphiqlRequest)
    (Do : Params S Req → W → Result D × W) (Encode : Result D → Except GoError String)
    (s : S) (body : Body) (w : W) :
    (∀ err, Decode body = Except.error err →
      serveGraphQL Decode Do Encode s body w =
        ⟨[RWCall.WriteHeader 500, RWCall.Write err.msg], [], w, false⟩) ∧
    (∀ req, Decode body = Except.ok req →
      (serveGraphQL Decode Do Encode s body w).runs = [⟨s, req.Query, [], "", []⟩] ∧
      (serveGraphQL Decode Do Encode s body w).world =
        (Do ⟨s, req.Query, [], "", []⟩ w).2 ∧
      (∀ text, Encode (Do ⟨s, req.Query, [], "", []⟩ w).1 = Except.ok text →
        (serveGraphQL Decode Do Encode s body w).rw = [RWCall.Write text])) := by
  constructor
  · intro err hd
    simp [serveGraphQL, hd, sendError, GoError.Error]
  · intro req hd
    refine ⟨?_, ?_, ?_⟩
    · simp only [serveGraphQL, hd]
      split <;> rfl
    · simp only [serveGraphQL, hd]
      split <;> rfl
    · intro text ht
      simp [serveGraphQL, hd, ht]

/-- Witness of C8: a body that does not decode, on the sample data. -/
theorem serveGraphQL_contract_witness :
    serveGraphQL (fun (_ : String) => Except.error ⟨"unexpected end of JSON input"⟩)
      (fun (_ : Params Unit String) (w : Nat) => ((⟨(), []⟩ : Result Unit), w + 1))
      (fun _ => Except.ok "ok") () "" 0 =
      ⟨[RWCall.WriteHeader 500, RWCall.Write "unexpected end of JSON input"], [], 0, false⟩ :=
  (serveGraphQL_contract (fun (_ : String) => Except.error ⟨"unexpected end of JSON input"⟩)
      (fun (_ : Params Unit String) (w : Nat) => ((⟨(), []⟩ : Result Unit), w + 1))
      (fun _ => Except.ok "ok") () "" 0).1 ⟨"unexpected end of JSON input"⟩ rfl

/-! ## C10: the status passed to `WriteHeader` -/

/-- C10 fails as stated: `QueryTransaction` failing with the message `42` makes
the primary endpoint call `WriteHeader 42`, and 42 is not a status code that
`WriteHeader` accepts: the call panics and is the last call of the response. -/
theorem httpHandler_status_out_of_range :
    (httpHandler sampleOptions
      (fun (_ : Params Unit String) =>
        executeField sampleComplete [] (queryTransaction (failingHandler "42"))
          "queryTransaction" [("Id", Value.str "X")])
      sampleMarshal () "queryTransaction(Id: X)" sampleWorld).rw =
      [RWCall.HeaderSet "Content-Type" "application/json", RWCall.WriteHeader 42] ∧
    (httpHandler sampleOptions
      (fun (_ : Params Unit String) =>
        executeField sampleComplete [] (queryTransaction (failingHandler "42"))
          "queryTransaction" [("Id", Value.str "X")])
      sampleMarshal () "queryTransaction(Id: X)" sampleWorld).panicked = true ∧
    httpStatusResponse (⟨(), [⟨"42", []⟩]⟩ : Result Unit) = 42 ∧
    ¬ validStatusCode (httpStatusResponse (⟨(), [⟨"42", []⟩]⟩ : Result Unit)) := by
  refine ⟨rfl, rfl, by decide, ?_⟩
  have h42 : httpStatusResponse (⟨(), [⟨"42", []⟩]⟩ : Result Unit) = 42 := by decide
  rw [h42]
  unfold validStatusCode
  omega

/-- C10, amended. For every outcome, the status the primary endpoint derives
and passes to `WriteHeader` is in the range 100..999 exactly when the outcome
carries no failure, or `Atoi` fails on the first failure's message (the status
is then 500), or `Atoi` reads from it an integer in the range 100..999. An
integer that `Atoi` reads from the first failure's message is the derived
status as it is, whatever its range, and the handler, run on a request whose
outcome this is, passes the derived status to `WriteHeader`. -/
theorem httpStatusResponse_valid_iff {S Req W D : Type}
    (NewRequestOptions : Req → RequestOptions)
    (Marshal : Result D → String × Option GoError) (schema : S) (r : Req) (w : W)
    (result : Result D) :
    (validStatusCode (httpStatusResponse result) ↔
      (result.Errors = [] ∨
        ∃ e rest, result.Errors = e :: rest ∧
          ((Atoi e.Message).2 ≠ none ∨ validStatusCode (Atoi e.Message).1))) ∧
    (∀ e rest n, result.Errors = e :: rest → Atoi e.Message = (n, none) →
      httpStatusResponse result = n) ∧
    (∃ pre post,
      (httpHandler NewRequestOptions (fun (_ : Params S Req) (w : W) => (result, w))
        Marshal schema r w).rw =
        pre ++ RWCall.WriteHeader (httpStatusResponse result) :: post) := by
  refine ⟨?_, ?_, ?_⟩
  · obtain ⟨d, errs⟩ := result
    cases errs with
    | nil =>
      rw [httpStatusResponse_nil]
      simp [validStatusCode]
    | cons e rest =>
      rw [httpStatusResponse_cons]
      by_cases hA : (Atoi e.Message).2 = none
      · simp [hA]
      · simp [hA, validStatusCode]
  · intro e rest n he hA
    obtain ⟨d, errs⟩ := result
    simp only at he
    subst he
    rw [httpStatusResponse_cons, hA]
    simp
  · obtain ⟨params, _, _, h3, _, _⟩ := httpHandler_run NewRequestOptions
      (fun (_ : Params S Req) (w : W) => (result, w)) Marshal schema r w
    exact h3

/-- Witness of C10, amended: the first failure `42` gives the derived status
42. -/
theorem httpStatusResponse_valid_iff_witness :
    Atoi "42" = (42, none) ∧
    httpStatusResponse (⟨(), [⟨"42", []⟩]⟩ : Result Unit) = 42 :=
  ⟨by decide,
   (httpStatusResponse_valid_iff sampleOptions sampleMarshal () "q" ()
      (⟨(), [⟨"42", []⟩]⟩ : Result Unit)).2.1 ⟨"42", []⟩ [] 42 rfl (by decide)⟩

/-! ## C7 and the structural decode of `constructBFTX` -/

theorem insertMember_perm (m : String × Json) (l : List (String × Json)) :
    (insertMember m l).Perm (m :: l) := by
  induction l with
  | nil => exact List.Perm.refl _
  | cons x xs ih =>
    simp only [insertMember]
    split
    · exact List.Perm.refl _
    · exact ((List.Perm.cons x ih).trans (List.Perm.swap m x xs))

theorem sortMembers_perm (l : List (String × Json)) : (sortMembers l).Perm l := by
  induction l with
  | nil => exact List.Perm.refl _
  | cons m ms ih =>
    simp only [sortMembers]
    exact (insertMember_perm m _).trans (List.Perm.cons m ih)

theorem marshalMembers_keys (kvs : List (String × Value)) (ms : List (String × Json))
    (h : marshalMembers kvs = some ms) : ms.map Prod.fst = kvs.map Prod.fst := by
  induction kvs generalizing ms with
  | nil =>
    simp [marshalMembers] at h
    subst h
    rfl
  | cons a rest ih =>
    obtain ⟨k, v⟩ := a
    simp only [marshalMembers] at h
    cases hv : marshalValue v with
    | none => simp [hv] at h
    | some j =>
      cases hr : marshalMembers rest with
      | none => simp [hv, hr] at h
      | some js =>
        simp [hv, hr] at h
        subst h
        simp [ih js hr]

theorem zeroFields_eq_map (fs : List (String × GoType)) :
    zeroFields fs = fs.map (fun f => (f.1, zeroValue f.2)) := by
  induction fs with
  | nil => simp [zeroFields]
  | cons a rest ih =>
    obtain ⟨n, ty⟩ := a
    simp [zeroFields, ih]

theorem transferFields_eq_map (fs : List (String × GoType)) (kvs : List (String × Value)) :
    transferFields fs kvs = fs.map (fun f => (f.1,
      match kvs.lookup f.1 with
      | some v => transfer f.2 v
      | none => zeroValue f.2)) := by
  induction fs with
  | nil => simp [transferFields]
  | cons a rest ih =>
    obtain ⟨n, ty⟩ := a
    simp [transferFields, ih]

theorem fieldsAfter_nil (fs : List (String × GoType)) (kvs : List (String × Value)) :
    fieldsAfter fs kvs [] = zeroFields fs := by
  simp [fieldsAfter, zeroFields_eq_map]

theorem fieldsAfter_all (fs : List (String × GoType)) (kvs : List (String × Value))
    (done : List String) (hall : ∀ n ∈ kvs.map Prod.fst, n ∈ done) :
    fieldsAfter fs kvs done = transferFields fs kvs := by
  rw [transferFields_eq_map, fieldsAfter]
  apply List.map_congr_left
  intro f _
  by_cases hd : f.1 ∈ done
  · simp [hd]
  · have hnone : kvs.lookup f.1 = none :=
      lookup_none_of_not_mem kvs f.1 (fun hm => hd (hall _ hm))
    simp [hd, hnone]

theorem not_mem_keys_of_lookup_none {β : Type} (l : List (String × β)) (k : String)
    (h : l.lookup k = none) : k ∉ l.map Prod.fst := by
  induction l with
  | nil => simp
  | cons a rest ih =>
    obtain ⟨k', v⟩ := a
    by_cases hk : k = k'
    · subst hk
      simp [List.lookup] at h
    · have hne : (k == k') = false := by simpa using hk
      simp only [List.lookup, hne] at h
      simp only [List.map_cons, List.mem_cons, not_or]
      exact ⟨hk, ih h⟩

theorem fieldsAfter_skip (fs : List (String × GoType)) (kvs : List (String × Value))
    (done : List String) (k : String) (hk : fs.lookup k = none) :
    fieldsAfter fs kvs (k :: done) = fieldsAfter fs kvs done := by
  unfold fieldsAfter
  apply List.map_congr_left
  intro f hf
  have hne : f.1 ≠ k := by
    intro he
    exact not_mem_keys_of_lookup_none fs k hk (List.mem_map.2 ⟨f, hf, he⟩)
  simp [hne]

theorem fieldsAfter_keys (fs : List (String × GoType)) (kvs : List (String × Value))
    (done : List String) : (fieldsAfter fs kvs done).map Prod.fst = fs.map Prod.fst := by
  simp [fieldsAfter, List.map_map, Function.comp_def]

theorem getField_fieldsAfter (fs : List (String × GoType)) (kvs : List (String × Value))
    (done : List String) (k : String) (ty : GoType) (hnd : (fs.map Prod.fst).Nodup)
    (hk : fs.lookup k = some ty) (hd : k ∉ done) :
    getField (fieldsAfter fs kvs done) k ty = zeroValue ty := by
  have hmem : (k, zeroValue ty) ∈ fieldsAfter fs kvs done := by
    unfold fieldsAfter
    exact List.mem_map.2 ⟨(k, ty), mem_of_lookup fs k ty hk, by simp [hd]⟩
  have hl := lookup_of_mem_nodup (fieldsAfter fs kvs done) k (zeroValue ty)
    (by rw [fieldsAfter_keys]; exact hnd) hmem
  simp [getField, hl]

theorem setField_fieldsAfter (fs : List (String × GoType)) (kvs : List (String × Value))
    (done : List String) (k : String) (ty : GoType) (v : Value)
    (hnd : (fs.map Prod.fst).Nodup) (hk : fs.lookup k = some ty)
    (hv : kvs.lookup k = some v) :
    setField (fieldsAfter fs kvs done) k (transfer ty v) = fieldsAfter fs kvs (k :: done) := by
  unfold setField fieldsAfter
  rw [List.map_map]
  apply List.map_congr_left
  intro f hf
  by_cases he : f.1 = k
  · have hty : fs.lookup f.1 = some f.2 := lookup_of_mem_nodup fs f.1 f.2 hnd hf
    rw [he, hk] at hty
    cases hty
    simp [he, hv]
  · simp [he]

theorem find_exact_of_lookup (fs : List (String × GoType)) (k : String) (ty : GoType)
    (hk : fs.lookup k = some ty) : fs.find? (fun f => f.1 == k) = some (k, ty) := by
  induction fs with
  | nil => simp at hk
  | cons a rest ih =>
    obtain ⟨n, t⟩ := a
    by_cases hn : k = n
    · subst hn
      simp [List.lookup] at hk
      simp [List.find?, hk]
    · have hb : (k == n) = false := by simpa using hn
      have hb' : (n == k) = false := by simpa using (fun h => hn h.symm)
      simp only [List.lookup, hb] at hk
      simp only [List.find?, hb']
      exact ih hk

theorem find_exact_none_of_lookup (fs : List (String × GoType)) (k : String)
    (hk : fs.lookup k = none) : fs.find? (fun f => f.1 == k) = none := by
  rw [List.find?_eq_none]
  intro f hf hfe
  have he : f.1 = k := by simpa using hfe
  exact not_mem_keys_of_lookup_none fs k hk (List.mem_map.2 ⟨f, hf, he⟩)

theorem findField_exact (fold : Char → Char) (fs : List (String × GoType)) (k : String)
    (ty : GoType) (hk : fs.lookup k = some ty) : findField fold fs k = some (k, ty) := by
  simp [findField, find_exact_of_lookup fs k ty hk]

theorem findField_none (fold : Char → Char) (fs : List (String × GoType)) (k : String)
    (hk : fs.lookup k = none) (hf : fs.any (fun f => equalFold fold f.1 k) = false) :
    findField fold fs k = none := by
  have h2 : fs.find? (fun f => equalFold fold f.1 k) = none := by
    rw [List.find?_eq_none]
    intro f hmem hfe
    have : fs.any (fun f => equalFold fold f.1 k) = true := List.any_eq_true.2 ⟨f, hmem, hfe⟩
    rw [hf] at this
    exact Bool.noConfusion this
  simp [findField, find_exact_none_of_lookup fs k hk, h2]

theorem decodeMembers_fieldsAfter (fold : Char → Char) (fs : List (String × GoType))
    (kvs : List (String × Value)) (hfs : (fs.map Prod.fst).Nodup)
    (hkv : (kvs.map Prod.fst).Nodup)
    (hdec : ∀ k v ty j, (k, v) ∈ kvs → fs.lookup k = some ty → marshalValue v = some j →
      decodeValue fold ty j (zeroValue ty) = some (transfer ty v))
    (hun : ∀ k v, (k, v) ∈ kvs → fs.lookup k = none →
      fs.any (fun f => equalFold fold f.1 k) = false)
    (L : List (String × Json)) (done : List String) (hL : (L.map Prod.fst).Nodup)
    (hfresh : ∀ k ∈ L.map Prod.fst, k ∉ done)
    (hgood : ∀ k j, (k, j) ∈ L → ∃ v, (k, v) ∈ kvs ∧ marshalValue v = some j) :
    decodeMembers fold fs L (fieldsAfter fs kvs done) =
      some (fieldsAfter fs kvs ((L.map Prod.fst).reverse ++ done)) := by
  induction L generalizing done with
  | nil => simp [decodeMembers]
  | cons m rest ih =>
    obtain ⟨k, j⟩ := m
    simp only [List.map_cons, List.nodup_cons] at hL
    obtain ⟨v, hv, hj⟩ := hgood k j (List.mem_cons_self _ _)
    have hkd : k ∉ done := hfresh k (by simp)
    have hfresh' : ∀ k' ∈ rest.map Prod.fst, k' ∉ k :: done := by
      intro k' hk' hmem
      rcases List.mem_cons.1 hmem with h1 | h1
      · subst h1
        exact hL.1 hk'
      · exact hfresh k' (by simp [hk']) h1
    have hgood' : ∀ k' j', (k', j') ∈ rest → ∃ v, (k', v) ∈ kvs ∧ marshalValue v = some j' :=
      fun k' j' h => hgood k' j' (List.mem_cons_of_mem _ h)
    have hrew : ((List.map Prod.fst ((k, j) :: rest)).reverse ++ done) =
        (rest.map Prod.fst).reverse ++ (k :: done) := by simp
    rw [hrew]
    cases hk : fs.lookup k with
    | none =>
      have hff := findField_none fold fs k hk (hun k v hv hk)
      simp only [decodeMembers, hff]
      rw [← fieldsAfter_skip fs kvs done k hk]
      exact ih (k :: done) hL.2 hfresh' hgood'
    | some ty =>
      have hff := findField_exact fold fs k ty hk
      have hget := getField_fieldsAfter fs kvs done k ty hfs hk hkd
      have hd := hdec k v ty j hv hk hj
      simp only [decodeMembers, hff, hget, hd]
      rw [setField_fieldsAfter fs kvs done k ty v hfs hk (lookup_of_mem_nodup kvs k v hkv hv)]
      exact ih (k :: done) hL.2 hfresh' hgood'

theorem marshalMembers_isSome (kvs : List (String × Value))
    (h : ∀ k v, (k, v) ∈ kvs → (marshalValue v).isSome = true) :
    ∃ ms, marshalMembers kvs = some ms := by
  induction kvs with
  | nil => exact ⟨[], by simp [marshalMembers]⟩
  | cons a rest ih =>
    obtain ⟨k, v⟩ := a
    obtain ⟨js, hjs⟩ := ih (fun k' v' hm => h k' v' (List.mem_cons_of_mem _ hm))
    have hv := h k v (List.mem_cons_self _ _)
    obtain ⟨j, hj⟩ := Option.isSome_iff_exists.1 hv
    exact ⟨(k, j) :: js, by simp [marshalMembers, hj, hjs]⟩

theorem marshalMembers_mem (kvs : List (String × Value)) (ms : List (String × Json))
    (h : marshalMembers kvs = some ms) (k : String) (j : Json) (hm : (k, j) ∈ ms) :
    ∃ v, (k, v) ∈ kvs ∧ marshalValue v = some j := by
  induction kvs generalizing ms with
  | nil =>
    simp [marshalMembers] at h
    subst h
    simp at hm
  | cons a rest ih =>
    obtain ⟨k', v'⟩ := a
    simp only [marshalMembers] at h
    cases hv : marshalValue v' with
    | none => simp [hv] at h
    | some j' =>
      cases hr : marshalMembers rest with
      | none => simp [hv, hr] at h
      | some js =>
        simp [hv, hr] at h
        subst h
        rcases List.mem_cons.1 hm with h1 | h1
        · cases h1
          exact ⟨v', List.mem_cons_self _ _, hv⟩
        · obtain ⟨v, hv1, hv2⟩ := ih js hr h1
          exact ⟨v, List.mem_cons_of_mem _ hv1, hv2⟩

theorem membersConform_mem (fold : Char → Char) (fs : List (String × GoType))
    (kvs : List (String × Value)) (h : membersConform fold fs kvs = true) (k : String)
    (v : Value) (hm : (k, v) ∈ kvs) :
    (match fs.lookup k with
      | some ty => conformsTo fold ty v
      | none => !(fs.any (fun f => equalFold fold f.1 k)) && (marshalValue v).isSome) = true := by
  induction kvs with
  | nil => simp at hm
  | cons a rest ih =>
    obtain ⟨k', v'⟩ := a
    simp only [membersConform, Bool.and_eq_true] at h
    rcases List.mem_cons.1 hm with h1 | h1
    · cases h1
      exact h.1
    · exact ih h.2 h1

theorem fieldsWellFormed_mem (fs : List (String × GoType)) (h : fieldsWellFormed fs = true)
    (f : String × GoType) (hm : f ∈ fs) : wellFormed f.2 = true := by
  induction fs with
  | nil => simp at hm
  | cons a rest ih =>
    obtain ⟨n, t⟩ := a
    simp only [fieldsWellFormed, Bool.and_eq_true] at h
    rcases List.mem_cons.1 hm with h1 | h1
    · subst h1
      exact h.1
    · exact ih h.2 h1

theorem GoType.induct (P : GoType → Prop) (hs : P GoType.string) (hb : P GoType.bool)
    (hi : P GoType.int)
    (hst : ∀ fs : List (String × GoType), (∀ f ∈ fs, P f.2) → P (GoType.struct fs)) :
    ∀ ty, P ty := by
  intro ty
  refine GoType.rec (motive_1 := P) (motive_2 := fun fs => ∀ f ∈ fs, P f.2)
    (motive_3 := fun f => P f.2) hs hb hi (fun fs ih => hst fs ih) ?_ ?_ ?_ ty
  · intro f hf
    simp at hf
  · intro head tail h1 h2 f hf
    rcases List.mem_cons.1 hf with h | h
    · subst h
      exact h1
    · exact h2 f h
  · intro n t ht
    exact ht

theorem decode_conforming (fold : Char → Char) : ∀ (ty : GoType) (v : Value),
    wellFormed ty = true → conformsTo fold ty v = true →
    ∃ j, marshalValue v = some j ∧
      decodeValue fold ty j (zeroValue ty) = some (transfer ty v) := by
  intro ty
  induction ty using GoType.induct with
  | hs =>
    intro v _ hc
    cases v <;> simp [conformsTo] at hc <;>
      simp [marshalValue, decodeValue, transfer, zeroValue]
  | hb =>
    intro v _ hc
    cases v <;> simp [conformsTo] at hc <;>
      simp [marshalValue, decodeValue, transfer, zeroValue]
  | hi =>
    intro v _ hc
    cases v with
    | null => simp [marshalValue, decodeValue, transfer, zeroValue]
    | int n =>
      simp [conformsTo] at hc
      refine ⟨Json.num n, by simp [marshalValue], ?_⟩
      simp [decodeValue, transfer, hc.1, hc.2]
    | _ => simp [conformsTo] at hc
  | hst fs ih =>
    intro v hwf hc
    simp only [wellFormed, Bool.and_eq_true, decide_eq_true_eq] at hwf
    obtain ⟨hfs, hfwf⟩ := hwf
    cases v with
    | null => exact ⟨Json.null, by simp [marshalValue], by simp [decodeValue, transfer]⟩
    | obj kvs =>
      simp only [conformsTo, Bool.and_eq_true, decide_eq_true_eq] at hc
      obtain ⟨hkv, hmc⟩ := hc
      -- every value of the bag is marshalled
      have hms : ∀ k v, (k, v) ∈ kvs → (marshalValue v).isSome = true := by
        intro k v hm
        have h1 := membersConform_mem fold fs kvs hmc k v hm
        cases hk : fs.lookup k with
        | none =>
          simp only [hk, Bool.and_eq_true] at h1
          exact h1.2
        | some ty =>
          simp only [hk] at h1
          have hmem := mem_of_lookup fs k ty hk
          obtain ⟨j, hj, _⟩ := ih (k, ty) hmem v (fieldsWellFormed_mem fs hfwf (k, ty) hmem) h1
          simp [hj]
      obtain ⟨ms, hmsEq⟩ := marshalMembers_isSome kvs hms
      refine ⟨Json.obj (sortMembers ms), by simp [marshalValue, hmsEq], ?_⟩
      have hperm := sortMembers_perm ms
      have hkeys := marshalMembers_keys kvs ms hmsEq
      have hndms : (ms.map Prod.fst).Nodup := by rw [hkeys]; exact hkv
      have hndL : ((sortMembers ms).map Prod.fst).Nodup :=
        (hperm.map Prod.fst).nodup_iff.2 hndms
      have hcore := decodeMembers_fieldsAfter fold fs kvs hfs hkv
        (by
          intro k v ty j hm hk hj
          have h1 := membersConform_mem fold fs kvs hmc k v hm
          simp only [hk] at h1
          have hmem := mem_of_lookup fs k ty hk
          obtain ⟨j', hj', hd⟩ :=
            ih (k, ty) hmem v (fieldsWellFormed_mem fs hfwf (k, ty) hmem) h1
          rw [hj] at hj'
          cases hj'
          exact hd)
        (by
          intro k v hm hk
          have h1 := membersConform_mem fold fs kvs hmc k v hm
          simp only [hk, Bool.and_eq_true, Bool.not_eq_true'] at h1
          exact h1.1)
        (sortMembers ms) [] hndL (by simp)
        (by
          intro k j hm
          exact marshalMembers_mem kvs ms hmsEq k j (hperm.mem_iff.1 hm))
      rw [fieldsAfter_nil] at hcore
      have hall : fieldsAfter fs kvs (((sortMembers ms).map Prod.fst).reverse ++ []) =
          transferFields fs kvs := by
        apply fieldsAfter_all
        intro n hn
        rw [← hkeys] at hn
        simp only [List.append_nil, List.mem_reverse]
        exact (hperm.map Prod.fst).mem_iff.2 hn
      rw [hall] at hcore
      simp [decodeValue, zeroValue, structFields, hcore, transfer]
    | _ => simp [conformsTo] at hc

/-- C7. For every `encoding/json` and every argument bag: when `json.Unmarshal`
of the re-encoded bag fails, the resolver of `constructBFTX` returns no value
and the error `500` and leaves the state as it was (`ConstructBfTx` is not
called); when it succeeds with the record `t`, the resolver goes through to
`ConstructBfTx t`. When the re-encoding itself fails (its error is not read),
`json.Marshal` has returned no bytes, `json.Unmarshal` fails on them, and the
resolver again returns the error `500` without calling `ConstructBfTx`. -/
theorem constructBFTX_decoding_error {σ T V B : Type} (json : JsonCodec B T) (zero : T)
    (h : ApiHandler σ T V) (w : World σ T) (fold : Char → Char) (shape : GoType)
    (hr : ApiHandler σ GoVal V) (wr : World σ GoVal) (args : Args) :
    (∀ e, json.Unmarshal (json.Marshal args).1 zero = Except.error e →
      constructBFTX json zero h args w = ((none, some ⟨"500"⟩), w)) ∧
    (∀ t, json.Unmarshal (json.Marshal args).1 zero = Except.ok t →
      PassesThrough (constructBFTX json zero h args w) (ExtCall.ConstructBfTx t)
        (h.ConstructBfTx t) w) ∧
    (∀ e, ((goJson fold shape).Marshal args).2 = some e →
      constructBFTX (goJson fold shape) (zeroValue shape) hr args wr =
        ((none, some ⟨"500"⟩), wr)) := by
  refine ⟨?_, ?_, ?_⟩
  · intro e he
    simp [constructBFTX, he, errorsNew, Itoa_internalServerError]
  · intro t ht
    simp [constructBFTX, ht, PassesThrough, invoke]
  · intro e he
    have hm : marshalValue (Value.obj args) = none := by
      cases hv : marshalValue (Value.obj args) with
      | none => rfl
      | some j => simp [goJson, hv] at he
    simp [constructBFTX, goJson, hm, errorsNew, Itoa_internalServerError]

/-- Witness of C7: a bag with a NaN cannot be re-encoded, a bag whose `Id` is a
number cannot be decoded; both give the error `500` and no call. -/
theorem constructBFTX_decoding_error_witness :
    ((goJson asciiFold sampleShape).Marshal [("x", Value.float none)]).2 =
      some ⟨"json: unsupported value"⟩ ∧
    constructBFTX (goJson asciiFold sampleShape) (zeroValue sampleShape) sampleHandler
      [("x", Value.float none)] sampleWorld = ((none, some ⟨"500"⟩), sampleWorld) ∧
    constructBFTX (goJson asciiFold sampleShape) (zeroValue sampleShape) sampleHandler
      [("Id", Value.int 7)] sampleWorld = ((none, some ⟨"500"⟩), sampleWorld) :=
  ⟨rfl,
   (constructBFTX_decoding_error (goJson asciiFold sampleShape) (zeroValue sampleShape)
      sampleHandler sampleWorld asciiFold sampleShape sampleHandler sampleWorld
      [("x", Value.float none)]).2.2 ⟨"json: unsupported value"⟩ rfl,
   (constructBFTX_decoding_error (goJson asciiFold sampleShape) (zeroValue sampleShape)
      sampleHandler sampleWorld asciiFold sampleShape sampleHandler sampleWorld
      [("Id", Value.int 7)]).1 ⟨"json: cannot unmarshal"⟩ rfl⟩

/-- The case-insensitive match on any record type: when no field of the struct
is named `key` and the first field that equals `key` up to letter case is the
string field `n`, a bag that holds a number under `key` makes the resolver of
`constructBFTX` return the error `500` without calling `ConstructBfTx`. -/
theorem fold_matched_key_type_error {σ V : Type} (fold : Char → Char)
    (fs : List (String × GoType)) (key n : String) (h : ApiHandler σ GoVal V)
    (w : World σ GoVal) (hexact : fs.find? (fun f => f.1 == key) = none)
    (hfold : fs.find? (fun f => equalFold fold f.1 key) = some (n, GoType.string)) :
    constructBFTX (goJson fold (GoType.struct fs)) (zeroValue (GoType.struct fs)) h
      [(key, Value.int 7)] w = ((none, some ⟨"500"⟩), w) := by
  simp [constructBFTX, goJson, marshalValue, marshalMembers, sortMembers, insertMember,
    decodeValue, decodeMembers, findField, hexact, hfold, errorsNew,
    Itoa_internalServerError]

/-- The resolver of `constructBFTX` called directly on bags with top-level keys
other than the declared argument `Properties` (bags the schema engine does not
hand over), on a transaction shape with the string field `Id`: the bag that
holds `a` under `Id` and `b` under `id` is decoded into a record whose `Id` is
`b`; the bag that holds only `b` under `id` is decoded into a record whose `Id`
is `b`; and the bag that holds a number under `id` makes the decode fail with
the error `500`. -/
theorem constructBFTX_decode_case_insensitive :
    constructBFTX (goJson asciiFold sampleShape) (zeroValue sampleShape) sampleHandler
      [("Id", Value.str "a"), ("id", Value.str "b")] sampleWorld =
      ((some "constructed", none),
        ⟨1, [ExtCall.ConstructBfTx (GoVal.struct
          [("Properties", GoVal.struct [("A", GoVal.str ""), ("B", GoVal.str "")]),
           ("Id", GoVal.str "b")])]⟩) ∧
    constructBFTX (goJson asciiFold sampleShape) (zeroValue sampleShape) sampleHandler
      [("id", Value.str "b")] sampleWorld =
      ((some "constructed", none),
        ⟨1, [ExtCall.ConstructBfTx (GoVal.struct
          [("Properties", GoVal.struct [("A", GoVal.str ""), ("B", GoVal.str "")]),
           ("Id", GoVal.str "b")])]⟩) ∧
    constructBFTX (goJson asciiFold sampleShape) (zeroValue sampleShape) sampleHandler
      [("id", Value.int 7)] sampleWorld = ((none, some ⟨"500"⟩), sampleWorld) :=
  ⟨rfl, rfl, rfl⟩

/-- The structural decode on conforming bags. For every record type whose
structs declare each field name
once and every argument bag that conforms to it (`conformsTo`), the re-encoding
and the decoding succeed and the resolver of `constructBFTX` goes through to
`ConstructBfTx` with the record `transfer shape bag`: for a struct with the
fields `fs`, every declared field holds what `transfer` gives for the input's
value under its name (the value itself for a string, a boolean or an integer,
the zero value for a null) when the name is a key of the input, and its zero
value when it is not; keys that match no declared field are ignored. -/
theorem constructBFTX_structural_decode {σ V : Type} (fold : Char → Char) (shape : GoType)
    (h : ApiHandler σ GoVal V) (args : Args) (w : World σ GoVal)
    (hwf : wellFormed shape = true) (hc : conformsTo fold shape (Value.obj args) = true) :
    PassesThrough (constructBFTX (goJson fold shape) (zeroValue shape) h args w)
      (ExtCall.ConstructBfTx (transfer shape (Value.obj args)))
      (h.ConstructBfTx (transfer shape (Value.obj args))) w ∧
    (∀ fs, shape = GoType.struct fs →
      transfer shape (Value.obj args) = GoVal.struct (fs.map (fun f => (f.1,
        match args.lookup f.1 with
        | some v => transfer f.2 v
        | none => zeroValue f.2)))) := by
  constructor
  · obtain ⟨j, hj, hd⟩ := decode_conforming fold shape (Value.obj args) hwf hc
    simp [constructBFTX, goJson, hj, hd, PassesThrough, invoke]
  · intro fs hfs
    subst hfs
    simp [transfer, transferFields_eq_map]

/-- The structural decode on a sample bag: the bag whose `Properties` holds `v1` under `A`,
`v2` under `B` and a number under the undeclared `C` gives the record with
`Properties.A = v1`, `Properties.B = v2` and the zero `Id`. -/
theorem constructBFTX_structural_decode_witness :
    wellFormed sampleShape = true ∧
    conformsTo asciiFold sampleShape (Value.obj [("Properties",
      Value.obj [("B", Value.str "v2"), ("A", Value.str "v1"), ("C", Value.int 3)])]) = true ∧
    transfer sampleShape (Value.obj [("Properties",
      Value.obj [("B", Value.str "v2"), ("A", Value.str "v1"), ("C", Value.int 3)])]) =
      GoVal.struct [("Properties", GoVal.struct [("A", GoVal.str "v1"), ("B", GoVal.str "v2")]),
        ("Id", GoVal.str "")] ∧
    PassesThrough
      (constructBFTX (goJson asciiFold sampleShape) (zeroValue sampleShape) sampleHandler
        [("Properties",
          Value.obj [("B", Value.str "v2"), ("A", Value.str "v1"), ("C", Value.int 3)])]
        sampleWorld)
      (ExtCall.ConstructBfTx (transfer sampleShape (Value.obj [("Properties",
        Value.obj [("B", Value.str "v2"), ("A", Value.str "v1"), ("C", Value.int 3)])])))
      (sampleHandler.ConstructBfTx (transfer sampleShape (Value.obj [("Properties",
        Value.obj [("B", Value.str "v2"), ("A", Value.str "v1"), ("C", Value.int 3)])])))
      sampleWorld :=
  ⟨by decide, by decide, rfl,
   (constructBFTX_structural_decode asciiFold sampleShape sampleHandler
      [("Properties",
        Value.obj [("B", Value.str "v2"), ("A", Value.str "v1"), ("C", Value.int 3)])]
      sampleWorld (by decide) (by decide)).1⟩

end Bftx
